import Mathlib

/-!
# Verification of the payment_dashboard audited update engine and aggregation pipeline

Shallow embedding of `backend/app.py` (the audited update engine
`update_transaction`, the filtered listing `get_transactions`, and the
aggregation endpoint `stats`) together with proofs settling the frozen
claims about the repository.

Modelling conventions:
* A Mongo/JSON value is `Value`: a string, a number, a datetime instant, or
  null.  Python compares numbers across `int`/`float` by numeric value, so
  both embed into a single `Rat`-valued constructor; `None` (and a stored
  BSON null, which `dict.get` also surfaces as `None`) embeds as `Value.vnull`.
  Datetimes embed as a `Nat` instant.
* A Mongo document is `Doc := String → Option Value` (`none` = field absent).
* The `transactions` and `edits` collections are lists in insertion order;
  `find_one` is the first match in natural order, `update_one` rewrites the
  first matching document, `insert_one` appends.
-/

namespace PaymentDashboard

/-- A JSON/BSON value as the Python code observes it: string, number
(Python `int` and `float` compare by numeric value, hence one rational
constructor), datetime instant, or null/absent-as-`None`. -/
inductive Value where
  | str (s : String)
  | num (q : Rat)
  | time (t : Nat)
  | vnull
deriving DecidableEq

/-- A Mongo document: a finitely-inhabited assignment of field names to
values; `none` means the field is absent from the document. -/
def Doc : Type := String → Option Value

/-- Python `existing.get(k)`: an absent field (and a stored null) reads as
`None`, i.e. `Value.vnull`. -/
def pyGet (d : Doc) (k : String) : Value := (d k).getD Value.vnull

/-- One step of Mongo `$set`: overwrite (or create) a single field. -/
def setField (d : Doc) (k : String) (v : Value) : Doc :=
  fun k' => if k' = k then some v else d k'

/-- Mongo `$set` with a field map: set every listed field in order. -/
def setFields (d : Doc) (u : List (String × Value)) : Doc :=
  u.foldl (fun d kv => setField d kv.1 kv.2) d

/-- The Mongo query `{"txn_id": tid}`: the document's `txn_id` field holds
exactly the string `tid`. -/
def txnPred (tid : String) (d : Doc) : Bool :=
  decide (d "txn_id" = some (Value.str tid))

/-- Mongo `update_one`: rewrite the first document matching the predicate,
leaving every other document unchanged. -/
def updateOne (p : Doc → Bool) (f : Doc → Doc) : List Doc → List Doc
  | [] => []
  | d :: ds => if p d then f d :: ds else d :: updateOne p f ds

/-- One audit document inserted into the `edits` collection by
`update_transaction` (its `changes.append({...})` literal). -/
structure Edit where
  txn_id : String
  field : String
  old_value : Value
  new_value : Value
  edited_by : Value
  edited_at : Nat
deriving DecidableEq

/-- The mutable state the backend touches: the `transactions` collection
and the append-only `edits` collection, both in insertion order. -/
structure St where
  txns : List Doc
  edits : List Edit

/-- Outcome of a `PUT /api/transactions/<txn_id>` call:
HTTP 400 `{"error": "No updatable fields provided"}`,
HTTP 404 `{"error": "Transaction not found"}`, or
HTTP 200 with the re-fetched document (`doc_to_json(None)` would serialize
as JSON null, hence the `Option`). -/
inductive UpdateResult where
  | invalidRequest
  | notFound
  | ok (doc : Option Doc)

/-- `allowed_fields` exactly as the source writes it:
`{"status", "amount", "payee", "channel", "remarks", "operator"}`. -/
def allowed_fields : List String :=
  ["status", "amount", "payee", "channel", "remarks", "operator"]

/-- The five mutable fields named by the specification's data model
("Mutable fields are exactly: status, amount, payee, channel, remarks").
Kept separate from `allowed_fields` so that the code's allow list can be
compared against the spec's. -/
def spec_mutable_fields : List String :=
  ["status", "amount", "payee", "channel", "remarks"]

/-- `payload.get("operator", "operator_unknown")`. -/
def operatorOf (payload : List (String × Value)) : Value :=
  (payload.lookup "operator").getD (Value.str "operator_unknown")

/-- `update = {k: v for k, v in payload.items() if k in allowed_fields}`;
a Python dict comprehension preserves iteration order. -/
def filtered_update (payload : List (String × Value)) : List (String × Value) :=
  payload.filter fun kv => decide (kv.1 ∈ allowed_fields)

/-- The loop `for k, v in update.items(): ... if old != v: changes.append({...})`
over an arbitrary field list `u`: one audit document per entry whose submitted
value differs (Python `!=`) from `existing.get(k)`. -/
def diff_over (tid : String) (op : Value) (existing : Doc) (now : Nat)
    (u : List (String × Value)) : List Edit :=
  u.filterMap fun kv =>
    if pyGet existing kv.1 = kv.2 then none
    else some { txn_id := tid, field := kv.1, old_value := pyGet existing kv.1,
                new_value := kv.2, edited_by := op, edited_at := now }

/-- The `changes` list built by `update_transaction`: the diff loop run over
the allow-list-filtered payload, stamping each change with
`payload.get("operator", "operator_unknown")`. -/
def diff_changes (tid : String) (payload : List (String × Value)) (existing : Doc)
    (now : Nat) : List Edit :=
  diff_over tid (operatorOf payload) existing now (filtered_update payload)

/-- `update_transaction` from `backend/app.py`, in the source's order:
allow-list filter, empty-update check (HTTP 400), existence lookup
(HTTP 404), per-field diff, conditional `$set` of the full filtered map plus
insertion of the change documents, and a final re-fetch of the record. -/
def update_transaction (tid : String) (payload : List (String × Value)) (now : Nat)
    (st : St) : UpdateResult × St :=
  let update := filtered_update payload
  if update.isEmpty then (.invalidRequest, st)
  else
    match st.txns.find? (txnPred tid) with
    | none => (.notFound, st)
    | some existing =>
      let changes := diff_changes tid payload existing now
      if changes.isEmpty then (.ok (st.txns.find? (txnPred tid)), st)
      else
        let newTxns := updateOne (txnPred tid) (fun d => setFields d update) st.txns
        (.ok (newTxns.find? (txnPred tid)), ⟨newTxns, st.edits ++ changes⟩)

theorem setFields_cons (d : Doc) (a : String × Value) (u : List (String × Value)) :
    setFields d (a :: u) = setFields (setField d a.1 a.2) u := rfl

theorem setFields_apply_not_mem {u : List (String × Value)} {k : String}
    (h : k ∉ u.map Prod.fst) (d : Doc) : setFields d u k = d k := by
  induction u generalizing d with
  | nil => rfl
  | cons a u ih =>
    simp only [List.map_cons, List.mem_cons, not_or] at h
    rw [setFields_cons, ih h.2]
    simp [setField, h.1]

theorem setFields_apply_mem {u : List (String × Value)} {kv : String × Value}
    (hnd : (u.map Prod.fst).Nodup) (hm : kv ∈ u) (d : Doc) :
    setFields d u kv.1 = some kv.2 := by
  induction u generalizing d with
  | nil => cases hm
  | cons a u ih =>
    simp only [List.map_cons, List.nodup_cons] at hnd
    rcases List.mem_cons.mp hm with h | h
    · subst h
      rw [setFields_cons, setFields_apply_not_mem hnd.1]
      simp [setField]
    · rw [setFields_cons]
      exact ih hnd.2 h _

theorem find?_updateOne {p : Doc → Bool} {f : Doc → Doc}
    (hf : ∀ d, p (f d) = p d) {l : List Doc} {ex : Doc}
    (h : l.find? p = some ex) :
    (updateOne p f l).find? p = some (f ex) := by
  induction l with
  | nil => cases h
  | cons d ds ih =>
    by_cases hp : p d
    · rw [List.find?_cons_of_pos _ hp] at h
      cases h
      simp [updateOne, hp, List.find?_cons_of_pos, hf]
    · rw [List.find?_cons_of_neg _ hp] at h
      simp only [updateOne, if_neg hp]
      rw [List.find?_cons_of_neg _ hp]
      exact ih h

theorem forall2_updateOne {R : Doc → Doc → Prop} (hR : ∀ d, R d d)
    {f : Doc → Doc} (hf : ∀ d, R d (f d)) (p : Doc → Bool) (l : List Doc) :
    List.Forall₂ R l (updateOne p f l) := by
  induction l with
  | nil => exact List.Forall₂.nil
  | cons d ds ih =>
    by_cases hp : p d
    · simp only [updateOne, if_pos hp]
      exact List.Forall₂.cons (hf d) (List.forall₂_same.mpr fun x _ => hR x)
    · simp only [updateOne, if_neg hp]
      exact List.Forall₂.cons (hR d) ih

theorem mem_filtered_update {payload : List (String × Value)} {kv : String × Value}
    (h : kv ∈ filtered_update payload) : kv.1 ∈ allowed_fields ∧ kv ∈ payload := by
  have h' := List.mem_filter.mp h
  exact ⟨of_decide_eq_true h'.2, h'.1⟩

theorem keys_filtered_nodup {payload : List (String × Value)}
    (h : (payload.map Prod.fst).Nodup) :
    ((filtered_update payload).map Prod.fst).Nodup :=
  h.sublist ((List.filter_sublist payload).map Prod.fst)

theorem diff_over_eq_nil {tid : String} {op : Value} {existing : Doc} {now : Nat}
    {u : List (String × Value)} :
    diff_over tid op existing now u = [] ↔ ∀ kv ∈ u, pyGet existing kv.1 = kv.2 := by
  unfold diff_over
  rw [List.filterMap_eq_nil_iff]
  constructor
  · intro h kv hkv
    have := h kv hkv
    by_contra hne
    rw [if_neg hne] at this
    cases this
  · intro h kv hkv
    rw [if_pos (h kv hkv)]

theorem diff_changes_eq_nil {tid : String} {payload : List (String × Value)}
    {existing : Doc} {now : Nat} :
    diff_changes tid payload existing now = [] ↔
      ∀ kv ∈ filtered_update payload, pyGet existing kv.1 = kv.2 :=
  diff_over_eq_nil

theorem mem_diff_over {tid : String} {op : Value} {existing : Doc} {now : Nat}
    {u : List (String × Value)} {e : Edit} :
    e ∈ diff_over tid op existing now u ↔
      ∃ kv ∈ u, pyGet existing kv.1 ≠ kv.2 ∧
        e = ⟨tid, kv.1, pyGet existing kv.1, kv.2, op, now⟩ := by
  unfold diff_over
  rw [List.mem_filterMap]
  constructor
  · rintro ⟨kv, hkv, hfe⟩
    by_cases hpq : pyGet existing kv.1 = kv.2
    · rw [if_pos hpq] at hfe; cases hfe
    · rw [if_neg hpq] at hfe; cases hfe; exact ⟨kv, hkv, hpq, rfl⟩
  · rintro ⟨kv, hkv, hpq, rfl⟩
    exact ⟨kv, hkv, by rw [if_neg hpq]⟩

theorem nodup_keys_eq {l : List (String × Value)} (h : (l.map Prod.fst).Nodup)
    {k : String} {a b : Value} (ha : (k, a) ∈ l) (hb : (k, b) ∈ l) : a = b := by
  induction l with
  | nil => cases ha
  | cons x t ih =>
    simp only [List.map_cons, List.nodup_cons] at h
    rcases List.mem_cons.mp ha with ha' | ha' <;>
      rcases List.mem_cons.mp hb with hb' | hb'
    · exact congrArg Prod.snd (ha'.trans hb'.symm)
    · exact absurd (List.mem_map.mpr ⟨(k, b), hb', by rw [← ha']⟩) h.1
    · exact absurd (List.mem_map.mpr ⟨(k, a), ha', by rw [← hb']⟩) h.1
    · exact ih h.2 ha' hb'

theorem diff_over_cons (tid : String) (op : Value) (existing : Doc) (now : Nat)
    (a : String × Value) (t : List (String × Value)) :
    diff_over tid op existing now (a :: t) =
      if pyGet existing a.1 = a.2 then diff_over tid op existing now t
      else ⟨tid, a.1, pyGet existing a.1, a.2, op, now⟩ ::
        diff_over tid op existing now t := by
  by_cases h : pyGet existing a.1 = a.2
  · rw [if_pos h]; simp [diff_over, List.filterMap_cons, h]
  · rw [if_neg h]; simp [diff_over, List.filterMap_cons, h]

theorem diff_over_countP_eq_one {tid : String} {op : Value} {existing : Doc}
    {now : Nat} {u : List (String × Value)} {F : String} {B : Value}
    (hnd : (u.map Prod.fst).Nodup) (hmem : (F, B) ∈ u)
    (hne : pyGet existing F ≠ B) :
    (diff_over tid op existing now u).countP (fun e => decide (e.field = F)) = 1 := by
  induction u with
  | nil => cases hmem
  | cons a t ih =>
    simp only [List.map_cons, List.nodup_cons] at hnd
    by_cases haF : a.1 = F
    · have ha : a = (F, B) := by
        rcases List.mem_cons.mp hmem with h | h
        · exact h.symm
        · exact absurd (List.mem_map.mpr ⟨(F, B), h, haF.symm⟩) hnd.1
      subst ha
      rw [diff_over_cons, if_neg hne]
      rw [List.countP_cons_of_pos _ _ (by simp)]
      have hz : (diff_over tid op existing now t).countP
          (fun e => decide (e.field = F)) = 0 := by
        rw [List.countP_eq_zero]
        intro e he
        rcases mem_diff_over.mp he with ⟨kv, hkv, _, rfl⟩
        simp only [decide_eq_true_eq]
        intro hkF
        exact hnd.1 (List.mem_map.mpr ⟨kv, hkv, hkF⟩)
      rw [hz]
    · have hmem' : (F, B) ∈ t := by
        rcases List.mem_cons.mp hmem with h | h
        · exact absurd (congrArg Prod.fst h.symm) haF
        · exact h
      rw [diff_over_cons]
      by_cases hpq : pyGet existing a.1 = a.2
      · rw [if_pos hpq]; exact ih hnd.2 hmem'
      · rw [if_neg hpq, List.countP_cons_of_neg _ _ (by simp [haF])]
        exact ih hnd.2 hmem'

theorem update_transaction_eq_invalid {tid : String} {pl : List (String × Value)}
    {now : Nat} {st : St} (h : filtered_update pl = []) :
    update_transaction tid pl now st = (.invalidRequest, st) := by
  simp [update_transaction, h]

theorem update_transaction_eq_notFound {tid : String} {pl : List (String × Value)}
    {now : Nat} {st : St} (hne : filtered_update pl ≠ [])
    (hnf : st.txns.find? (txnPred tid) = none) :
    update_transaction tid pl now st = (.notFound, st) := by
  have hb : (filtered_update pl).isEmpty = false := by
    cases h : (filtered_update pl).isEmpty
    · rfl
    · exact absurd (List.isEmpty_iff.mp h) hne
  simp [update_transaction, hb, hnf]

theorem update_transaction_eq_noop {tid : String} {pl : List (String × Value)}
    {now : Nat} {st : St} {ex : Doc} (hne : filtered_update pl ≠ [])
    (hex : st.txns.find? (txnPred tid) = some ex)
    (hch : diff_changes tid pl ex now = []) :
    update_transaction tid pl now st = (.ok (some ex), st) := by
  have hb : (filtered_update pl).isEmpty = false := by
    cases h : (filtered_update pl).isEmpty
    · rfl
    · exact absurd (List.isEmpty_iff.mp h) hne
  simp [update_transaction, hb, hex, hch]

theorem update_transaction_eq_write {tid : String} {pl : List (String × Value)}
    {now : Nat} {st : St} {ex : Doc} (hne : filtered_update pl ≠ [])
    (hex : st.txns.find? (txnPred tid) = some ex)
    (hch : diff_changes tid pl ex now ≠ []) :
    update_transaction tid pl now st =
      (.ok ((updateOne (txnPred tid) (fun d => setFields d (filtered_update pl))
          st.txns).find? (txnPred tid)),
       ⟨updateOne (txnPred tid) (fun d => setFields d (filtered_update pl)) st.txns,
        st.edits ++ diff_changes tid pl ex now⟩) := by
  have hb : (filtered_update pl).isEmpty = false := by
    cases h : (filtered_update pl).isEmpty
    · rfl
    · exact absurd (List.isEmpty_iff.mp h) hne
  have hcb : (diff_changes tid pl ex now).isEmpty = false := by
    cases h : (diff_changes tid pl ex now).isEmpty
    · rfl
    · exact absurd (List.isEmpty_iff.mp h) hch
  simp [update_transaction, hb, hex, hcb]

/-- A concrete transaction document in the seeded schema (`backend/seed_data.py`):
`txn_id, payer, payee, amount, channel, status, timestamp, remarks` and no
`operator` field. -/
def doc_pending : Doc := fun k =>
  if k = "txn_id" then some (Value.str "TXN100001")
  else if k = "payer" then some (Value.str "Alice")
  else if k = "payee" then some (Value.str "MerchantA")
  else if k = "amount" then some (Value.num 500)
  else if k = "channel" then some (Value.str "UPI")
  else if k = "status" then some (Value.str "Pending")
  else if k = "timestamp" then some (Value.time 100)
  else if k = "remarks" then some (Value.str "")
  else none

/-- A store holding no transactions at all. -/
def st_empty : St := ⟨[], []⟩

/-- A store holding exactly the seeded `TXN100001` document and no edits. -/
def st_pending : St := ⟨[doc_pending], []⟩

/-- Claim C4 (amended): an update naming a `transaction_id` for which no
record exists fails with NotFound — provided the field map still contains at
least one allowed key after filtering — and the state is untouched (hence the
existence check precedes any write).  The original claim's "for every
field_map" and "existence check precedes the empty-update check" are refuted
by `claimC4_counterexample`: the code runs the empty-update check first. -/
theorem claimC4_missing_notfound (tid : String) (pl : List (String × Value)) (now : Nat)
    (s0 : St) (hne : filtered_update pl ≠ [])
    (hnf : s0.txns.find? (txnPred tid) = none) :
    update_transaction tid pl now s0 = (.notFound, s0) :=
  update_transaction_eq_notFound hne hnf

/-- Claim C4, witness: on an empty store, an update of `TXN_MISSING` whose
field map carries an allowed key fails with NotFound. -/
theorem claimC4_witness :
    filtered_update [("status", Value.str "Success")] ≠ [] ∧
    update_transaction "TXN_MISSING" [("status", Value.str "Success")] 0 st_empty
      = (.notFound, st_empty) :=
  ⟨by decide, claimC4_missing_notfound "TXN_MISSING" [("status", Value.str "Success")] 0
    st_empty (by decide) rfl⟩

/-- Claim C4, counterexample to the claim as stated: with the field map
`{unknown_field: "x"}` an update of the missing identifier `TXN_MISSING`
returns InvalidRequest, not NotFound — the empty-update check runs before
the existence check. -/
theorem claimC4_counterexample :
    update_transaction "TXN_MISSING" [("unknown_field", Value.str "x")] 0 st_empty
      = (.invalidRequest, st_empty) ∧
    UpdateResult.invalidRequest ≠ UpdateResult.notFound :=
  ⟨update_transaction_eq_invalid (by decide), fun h => UpdateResult.noConfusion h⟩

/-- Claim C5: an update call whose field map contains zero allow-listed keys
(for example only `unknown_field`) fails with InvalidRequest and leaves both
the transactions collection and the audit trail untouched, including on an
existing record. -/
theorem claimC5_invalid_request (tid : String) (pl : List (String × Value)) (now : Nat)
    (s0 : St) (ex : Doc) (hfe : filtered_update pl = [])
    (_hex : s0.txns.find? (txnPred tid) = some ex) :
    update_transaction tid pl now s0 = (.invalidRequest, s0) :=
  update_transaction_eq_invalid hfe

/-- Claim C5, witness: updating the existing `TXN100001` with
`{unknown_field: "x"}` fails with InvalidRequest and changes nothing. -/
theorem claimC5_witness :
    filtered_update [("unknown_field", Value.str "x")] = [] ∧
    update_transaction "TXN100001" [("unknown_field", Value.str "x")] 3 st_pending
      = (.invalidRequest, st_pending) :=
  ⟨by decide, claimC5_invalid_request "TXN100001" [("unknown_field", Value.str "x")] 3
    st_pending doc_pending (by decide) rfl⟩

/-- Claim C3: an update call on an existing record whose surviving
(allow-listed) field values all equal the record's current values appends
zero Audit Events, performs no Repository write (the state is returned
unchanged), and succeeds, returning the unchanged current record. -/
theorem claimC3_noop (tid : String) (pl : List (String × Value)) (now : Nat)
    (s0 : St) (ex : Doc) (hne : filtered_update pl ≠ [])
    (hex : s0.txns.find? (txnPred tid) = some ex)
    (hall : ∀ kv ∈ filtered_update pl, pyGet ex kv.1 = kv.2) :
    update_transaction tid pl now s0 = (.ok (some ex), s0) :=
  update_transaction_eq_noop hne hex (diff_changes_eq_nil.mpr hall)

/-- Claim C3, witness: re-submitting `TXN100001`'s current status and amount
is a pure no-op that still succeeds with the unchanged record. -/
theorem claimC3_witness :
    (∀ kv ∈ filtered_update [("status", Value.str "Pending"), ("amount", Value.num 500)],
      pyGet doc_pending kv.1 = kv.2) ∧
    update_transaction "TXN100001"
        [("status", Value.str "Pending"), ("amount", Value.num 500)] 5 st_pending
      = (.ok (some doc_pending), st_pending) :=
  ⟨by decide, claimC3_noop "TXN100001"
    [("status", Value.str "Pending"), ("amount", Value.num 500)] 5 st_pending
    doc_pending (by decide) rfl (by decide)⟩

/-- Claim C8: submitted values are compared to stored values by numeric value
(Python `!=` treats `int 100` and `float 100.0` as equal; both embed as the
same rational), so an update whose submitted amount is numerically equal to
the stored amount produces no Audit Event for `amount`. -/
theorem claimC8_numeric_eq (tid : String) (pl : List (String × Value)) (now : Nat)
    (s0 : St) (ex : Doc) (q : Rat)
    (hnd : (pl.map Prod.fst).Nodup)
    (hex : s0.txns.find? (txnPred tid) = some ex)
    (hm : ("amount", Value.num q) ∈ pl)
    (hst : ex "amount" = some (Value.num q)) :
    ∃ new, (update_transaction tid pl now s0).2.edits = s0.edits ++ new ∧
      ∀ e ∈ new, e.field ≠ "amount" := by
  have hm' : ("amount", Value.num q) ∈ filtered_update pl :=
    List.mem_filter.mpr ⟨hm, by
      show decide (("amount" : String) ∈ allowed_fields) = true
      decide⟩
  have hne : filtered_update pl ≠ [] := List.ne_nil_of_mem hm'
  have hfield : ∀ e ∈ diff_changes tid pl ex now, e.field ≠ "amount" := by
    intro e he
    rcases mem_diff_over.mp he with ⟨kv, hkv, hpq, rfl⟩
    obtain ⟨k1, v2⟩ := kv
    intro hkF
    simp only at hkF
    subst hkF
    have hv : v2 = Value.num q := nodup_keys_eq (keys_filtered_nodup hnd) hkv hm'
    apply hpq
    simp [pyGet, hst, hv]
  by_cases hch : diff_changes tid pl ex now = []
  · rw [update_transaction_eq_noop hne hex hch]
    exact ⟨[], by simp, by simp⟩
  · rw [update_transaction_eq_write hne hex hch]
    exact ⟨diff_changes tid pl ex now, rfl, hfield⟩

/-- Claim C8, witness: updating `TXN100001` (stored amount `500`) with
status `"Success"` and amount `500` records no Audit Event for `amount`. -/
theorem claimC8_witness :
    ("amount", Value.num 500) ∈
      [("status", Value.str "Success"), ("amount", Value.num 500)] ∧
    ∃ new, (update_transaction "TXN100001"
        [("status", Value.str "Success"), ("amount", Value.num 500)] 11
        st_pending).2.edits = st_pending.edits ++ new ∧
      ∀ e ∈ new, e.field ≠ "amount" :=
  ⟨by decide, claimC8_numeric_eq "TXN100001"
    [("status", Value.str "Success"), ("amount", Value.num 500)] 11 st_pending
    doc_pending 500 (by decide) rfl (by decide) rfl⟩

/-- Claim C1 (amended): the code's allow list is the six keys
`{status, amount, payee, channel, remarks, operator}` — one more than the
spec's five mutable fields.  For every key outside those six, an update never
changes any document at that key (so the key never newly appears in any
record) and no appended Audit Event carries it as `field`.  The original
five-field claim is refuted by `claimC1_counterexample`: the reserved
`operator` key passes the filter, is written into the record, and is audited. -/
theorem claimC1_allowlist (tid : String) (pl : List (String × Value)) (now : Nat)
    (s0 : St) (k : String) (hk : k ∉ allowed_fields) :
    List.Forall₂ (fun d d' => d' k = d k) s0.txns
      (update_transaction tid pl now s0).2.txns ∧
    ∃ new, (update_transaction tid pl now s0).2.edits = s0.edits ++ new ∧
      ∀ e ∈ new, e.field ≠ k := by
  have hrefl : List.Forall₂ (fun d d' : Doc => d' k = d k) s0.txns s0.txns :=
    List.forall₂_same.mpr fun x _ => rfl
  by_cases hfe : filtered_update pl = []
  · rw [update_transaction_eq_invalid hfe]
    exact ⟨hrefl, [], by simp, by simp⟩
  · cases hex : s0.txns.find? (txnPred tid) with
    | none =>
      rw [update_transaction_eq_notFound hfe hex]
      exact ⟨hrefl, [], by simp, by simp⟩
    | some ex =>
      have hkkeys : k ∉ (filtered_update pl).map Prod.fst := by
        intro hmem
        rcases List.mem_map.mp hmem with ⟨kv, hkv, hfst⟩
        exact hk (hfst ▸ (mem_filtered_update hkv).1)
      have hfield : ∀ e ∈ diff_changes tid pl ex now, e.field ≠ k := by
        intro e he
        rcases mem_diff_over.mp he with ⟨kv, hkv, _, rfl⟩
        intro hek
        exact hk (hek ▸ (mem_filtered_update hkv).1)
      by_cases hch : diff_changes tid pl ex now = []
      · rw [update_transaction_eq_noop hfe hex hch]
        exact ⟨hrefl, [], by simp, by simp⟩
      · rw [update_transaction_eq_write hfe hex hch]
        exact ⟨forall2_updateOne (R := fun d d' => d' k = d k) (fun _ => rfl)
          (fun d => setFields_apply_not_mem hkkeys d) _ _,
          diff_changes tid pl ex now, rfl, hfield⟩

/-- Claim C1, witness: the key `secret_flag` is outside the allow list, so an
update carrying it leaves every document unchanged at `secret_flag` and no
new Audit Event names it. -/
theorem claimC1_witness :
    "secret_flag" ∉ allowed_fields ∧
    (List.Forall₂ (fun d d' => d' "secret_flag" = d "secret_flag")
      st_pending.txns
      (update_transaction "TXN100001"
        [("status", Value.str "Failed"), ("secret_flag", Value.str "x")] 7
        st_pending).2.txns ∧
    ∃ new, (update_transaction "TXN100001"
        [("status", Value.str "Failed"), ("secret_flag", Value.str "x")] 7
        st_pending).2.edits = st_pending.edits ++ new ∧
      ∀ e ∈ new, e.field ≠ "secret_flag") :=
  ⟨by decide, claimC1_allowlist "TXN100001"
    [("status", Value.str "Failed"), ("secret_flag", Value.str "x")] 7
    st_pending "secret_flag" (by decide)⟩

/-- Claim C1, counterexample to the claim as stated: `operator` is outside
the spec's five mutable fields, yet updating `TXN100001` with
`{status: "Success", operator: "alice"}` produces an Audit Event whose
`field` is `operator` and writes `operator = "alice"` into the stored
record. -/
theorem claimC1_counterexample :
    "operator" ∉ spec_mutable_fields ∧
    (update_transaction "TXN100001"
        [("status", Value.str "Success"), ("operator", Value.str "alice")] 7
        st_pending).2.edits.map Edit.field = ["status", "operator"] ∧
    ∀ d ∈ (update_transaction "TXN100001"
        [("status", Value.str "Success"), ("operator", Value.str "alice")] 7
        st_pending).2.txns, d "operator" = some (Value.str "alice") := by
  refine ⟨by decide, rfl, ?_⟩
  intro d hd
  have htx : (update_transaction "TXN100001"
      [("status", Value.str "Success"), ("operator", Value.str "alice")] 7
      st_pending).2.txns
      = [setFields doc_pending (filtered_update
          [("status", Value.str "Success"), ("operator", Value.str "alice")])] := rfl
  rw [htx] at hd
  rw [List.mem_singleton.mp hd]
  rfl

/-- The seeded `TXN100001` document additionally carrying
`operator = "alice"`, as a prior update by alice would have left it. -/
def doc_pending_alice : Doc := fun k =>
  if k = "operator" then some (Value.str "alice") else doc_pending k

/-- A store holding the alice-annotated `TXN100001` document and no edits. -/
def st_alice : St := ⟨[doc_pending_alice], []⟩

/-- Claim C2 (amended): an update that changes field F from value A to value B
creates exactly one Audit Event with that field, `old_value = A`,
`new_value = B` and `edited_by` the call's operator value; a submitted field
equal to its current value yields no event.  Scenario, amended: on a record
with `amount = 500`, `status = "Pending"` that already carries
`operator = "alice"`, the update `{status: "Success", amount: 500.00,
operator: "alice"}` yields a record with `status = "Success"` and exactly one
Audit Event (`field = status`, old `Pending`, new `Success`, edited by
`alice`), none for `amount`.  The scenario as originally stated — on a record
with no `operator` field — is refuted by `claimC2_counterexample`: the code
also audits the `operator` field, giving two events. -/
theorem claimC2_diff_accuracy (tid : String) (pl : List (String × Value)) (now : Nat)
    (s0 : St) (ex : Doc) (F : String) (A B : Value)
    (hnd : (pl.map Prod.fst).Nodup)
    (hex : s0.txns.find? (txnPred tid) = some ex)
    (hmem : (F, B) ∈ filtered_update pl)
    (hold : pyGet ex F = A) (hne : A ≠ B) :
    (∃ new, (update_transaction tid pl now s0).2.edits = s0.edits ++ new ∧
      new.countP (fun e => decide (e.field = F)) = 1 ∧
      (⟨tid, F, A, B, operatorOf pl, now⟩ : Edit) ∈ new) ∧
    ((update_transaction "TXN100001"
        [("status", Value.str "Success"), ("amount", Value.num 500),
         ("operator", Value.str "alice")] 9 st_alice).2.edits
      = [⟨"TXN100001", "status", Value.str "Pending", Value.str "Success",
          Value.str "alice", 9⟩] ∧
     ∃ d, (update_transaction "TXN100001"
        [("status", Value.str "Success"), ("amount", Value.num 500),
         ("operator", Value.str "alice")] 9 st_alice).1 = .ok (some d) ∧
       d "status" = some (Value.str "Success")) := by
  have hne' : pyGet ex F ≠ B := hold ▸ hne
  have hfne : filtered_update pl ≠ [] := List.ne_nil_of_mem hmem
  have hchne : diff_changes tid pl ex now ≠ [] := fun h =>
    hne' (diff_changes_eq_nil.mp h (F, B) hmem)
  rw [update_transaction_eq_write hfne hex hchne]
  refine ⟨⟨diff_changes tid pl ex now, rfl,
    diff_over_countP_eq_one (keys_filtered_nodup hnd) hmem hne',
    mem_diff_over.mpr ⟨(F, B), hmem, hne', by rw [hold]⟩⟩, rfl,
    setFields doc_pending_alice (filtered_update
      [("status", Value.str "Success"), ("amount", Value.num 500),
       ("operator", Value.str "alice")]), rfl, rfl⟩

/-- Claim C2, witness: the amended scenario instantiates the general diff
property at `F = status`, `A = "Pending"`, `B = "Success"`. -/
theorem claimC2_witness :
    (([("status", Value.str "Success"), ("amount", Value.num 500),
       ("operator", Value.str "alice")].map
        (Prod.fst (α := String) (β := Value))).Nodup) ∧
    ∃ new, (update_transaction "TXN100001"
        [("status", Value.str "Success"), ("amount", Value.num 500),
         ("operator", Value.str "alice")] 9 st_alice).2.edits
        = st_alice.edits ++ new ∧
      new.countP (fun e => decide (e.field = "status")) = 1 ∧
      (⟨"TXN100001", "status", Value.str "Pending", Value.str "Success",
        operatorOf [("status", Value.str "Success"), ("amount", Value.num 500),
          ("operator", Value.str "alice")], 9⟩ : Edit) ∈ new :=
  ⟨by decide, (claimC2_diff_accuracy "TXN100001"
    [("status", Value.str "Success"), ("amount", Value.num 500),
     ("operator", Value.str "alice")] 9 st_alice doc_pending_alice
    "status" (Value.str "Pending") (Value.str "Success")
    (by decide) rfl (by decide) rfl (by decide)).1⟩

/-- Claim C2, counterexample to the scenario as stated: on the seeded record
(which has no `operator` field), the update `{status: "Success",
amount: 500.00, operator: "alice"}` appends two Audit Events — one for
`status` and a second for `operator` — not exactly one. -/
theorem claimC2_counterexample :
    (update_transaction "TXN100001"
        [("status", Value.str "Success"), ("amount", Value.num 500),
         ("operator", Value.str "alice")] 9 st_pending).2.edits.map Edit.field
      = ["status", "operator"] ∧
    (update_transaction "TXN100001"
        [("status", Value.str "Success"), ("amount", Value.num 500),
         ("operator", Value.str "alice")] 9 st_pending).2.edits.length ≠ 1 :=
  ⟨rfl, by decide⟩

/-- Claim C6: updates are idempotent — running the same update call twice in
sequence leaves both collections exactly as after the first call, so the
second call appends zero Audit Events and performs no Repository write. -/
theorem claimC6_idempotent (tid : String) (pl : List (String × Value))
    (now1 now2 : Nat) (s0 : St) (hnd : (pl.map Prod.fst).Nodup) :
    (update_transaction tid pl now2
        (update_transaction tid pl now1 s0).2).2.txns
      = (update_transaction tid pl now1 s0).2.txns ∧
    (update_transaction tid pl now2
        (update_transaction tid pl now1 s0).2).2.edits
      = (update_transaction tid pl now1 s0).2.edits := by
  by_cases hfe : filtered_update pl = []
  · simp [update_transaction_eq_invalid hfe]
  · cases hex : s0.txns.find? (txnPred tid) with
    | none => simp [update_transaction_eq_notFound hfe hex]
    | some ex =>
      by_cases hch : diff_changes tid pl ex now1 = []
      · have hnoop : ∀ n, update_transaction tid pl n s0 = (.ok (some ex), s0) :=
          fun n => update_transaction_eq_noop hfe hex
            (diff_changes_eq_nil.mpr (diff_changes_eq_nil.mp hch))
        simp [hnoop]
      · have hkeys : "txn_id" ∉ (filtered_update pl).map Prod.fst := by
          intro hmem
          rcases List.mem_map.mp hmem with ⟨kv, hkv, hfst⟩
          exact absurd (hfst ▸ (mem_filtered_update hkv).1) (by decide)
        have hpres : ∀ d,
            txnPred tid (setFields d (filtered_update pl)) = txnPred tid d := by
          intro d
          unfold txnPred
          rw [setFields_apply_not_mem hkeys]
        have hfind1 : (updateOne (txnPred tid)
            (fun d => setFields d (filtered_update pl)) s0.txns).find?
              (txnPred tid) = some (setFields ex (filtered_update pl)) :=
          find?_updateOne hpres hex
        have hch2 : diff_changes tid pl
            (setFields ex (filtered_update pl)) now2 = [] := by
          apply diff_changes_eq_nil.mpr
          intro kv hkv
          unfold pyGet
          rw [setFields_apply_mem (keys_filtered_nodup hnd) hkv]
          rfl
        rw [update_transaction_eq_write hfe hex hch]
        rw [update_transaction_eq_noop hfe hfind1 hch2]
        exact ⟨rfl, rfl⟩

/-- Claim C6, witness: applying the status update to `TXN100001` twice leaves
the store exactly as after the first application. -/
theorem claimC6_witness :
    (([("status", Value.str "Success")].map
      (Prod.fst (α := String) (β := Value))).Nodup) ∧
    ((update_transaction "TXN100001" [("status", Value.str "Success")] 2
        (update_transaction "TXN100001" [("status", Value.str "Success")] 1
          st_pending).2).2.txns
      = (update_transaction "TXN100001" [("status", Value.str "Success")] 1
          st_pending).2.txns ∧
     (update_transaction "TXN100001" [("status", Value.str "Success")] 2
        (update_transaction "TXN100001" [("status", Value.str "Success")] 1
          st_pending).2).2.edits
      = (update_transaction "TXN100001" [("status", Value.str "Success")] 1
          st_pending).2.edits) :=
  ⟨by decide, claimC6_idempotent "TXN100001" [("status", Value.str "Success")]
    1 2 st_pending (by decide)⟩

/-! ## The aggregation endpoint `stats`

The three Mongo pipelines of `stats` all `$match` on
`timestamp >= window_start` (the code computes `window_start` as the start of
the current UTC day; the claims quantify over arbitrary windows, so it is a
parameter here) and then `$group`.  `$gte` on a datetime field matches only
datetime-typed values; `$sum: "$amount"` adds the numeric amounts (a missing
or non-numeric amount contributes nothing, modelled as `0`); `$group`'s
`_id: "$channel"` keys a document with a missing field under null.  A
`$group` stage denotes one output group per distinct key among the matched
documents, carrying the accumulated `$sum` values; the order of groups is
unspecified, so the embedding lists them in first-occurrence order. -/

/-- The `$match: {timestamp: {"$gte": window_start}}` stage applied to one
document. -/
def qualifies (ws : Nat) (d : Doc) : Bool :=
  match d "timestamp" with
  | some (.time t) => decide (ws ≤ t)
  | _ => false

/-- The value `$sum: "$amount"` accumulates for one document. -/
def amountOf (d : Doc) : Rat :=
  match d "amount" with
  | some (.num q) => q
  | _ => 0

/-- The `$group` key `_id: "$channel"` of one document (null when absent). -/
def chanKey (d : Doc) : Value := (d "channel").getD Value.vnull

/-- The `$group` key `_id: "$status"` of one document (null when absent). -/
def statKey (d : Doc) : Value := (d "status").getD Value.vnull

/-- `pipeline_total`'s `total_count`: `$sum: 1` over the matched documents
(`0` when no document matches, as the `tot[0] if tot else 0` fallback
yields). -/
def total_count (ws : Nat) (docs : List Doc) : Nat :=
  (docs.filter (qualifies ws)).foldl (fun n _ => n + 1) 0

/-- `pipeline_total`'s `total_volume`: `$sum: "$amount"` over the matched
documents (`0.0` when none match). -/
def total_volume (ws : Nat) (docs : List Doc) : Rat :=
  (docs.filter (qualifies ws)).foldl (fun s d => s + amountOf d) 0

/-- `pipeline_channel`: one `{_id, count, volume}` group per distinct channel
key among the matched documents. -/
def channel_data (ws : Nat) (docs : List Doc) : List (Value × Nat × Rat) :=
  (((docs.filter (qualifies ws)).map chanKey).dedup).map fun c =>
    (c, (docs.filter (qualifies ws)).countP (fun d => decide (chanKey d = c)),
     (((docs.filter (qualifies ws)).filter
        (fun d => decide (chanKey d = c))).map amountOf).sum)

/-- `pipeline_status`: one `{_id, count}` group per distinct status key among
the matched documents. -/
def status_data (ws : Nat) (docs : List Doc) : List (Value × Nat) :=
  (((docs.filter (qualifies ws)).map statKey).dedup).map fun s =>
    (s, (docs.filter (qualifies ws)).countP (fun d => decide (statKey d = s)))

theorem foldl_count (l : List Doc) (n : Nat) :
    l.foldl (fun n _ => n + 1) n = n + l.length := by
  induction l generalizing n with
  | nil => simp
  | cons d t ih => simp [List.foldl_cons, ih]; omega

theorem foldl_volume (l : List Doc) (r : Rat) :
    l.foldl (fun s d => s + amountOf d) r = r + (l.map amountOf).sum := by
  induction l generalizing r with
  | nil => simp
  | cons d t ih => simp [List.foldl_cons, ih]; ring

theorem sum_map_ite_zero {x : Value} {keys : List Value} (hx : x ∉ keys) :
    (keys.map fun c => if x = c then (1 : Nat) else 0).sum = 0 := by
  induction keys with
  | nil => rfl
  | cons a t ih =>
    simp only [List.mem_cons, not_or] at hx
    simp [if_neg hx.1, ih hx.2]

theorem sum_map_ite_one {x : Value} {keys : List Value} (hnd : keys.Nodup)
    (hx : x ∈ keys) :
    (keys.map fun c => if x = c then (1 : Nat) else 0).sum = 1 := by
  induction keys with
  | nil => cases hx
  | cons a t ih =>
    rw [List.nodup_cons] at hnd
    rcases List.mem_cons.mp hx with h | h
    · subst h
      simp [sum_map_ite_zero hnd.1]
    · have hxa : x ≠ a := fun he => hnd.1 (he ▸ h)
      simp [if_neg hxa, ih hnd.2 h]

theorem sum_counts (keys : List Value) (l : List Value) (hnd : keys.Nodup)
    (hcov : ∀ x ∈ l, x ∈ keys) :
    (keys.map fun c => l.countP (fun x => decide (x = c))).sum = l.length := by
  induction l with
  | nil => simp
  | cons x t ih =>
    have hx : x ∈ keys := hcov x (List.mem_cons_self x t)
    have ht : ∀ y ∈ t, y ∈ keys := fun y hy => hcov y (List.mem_cons_of_mem x hy)
    simp only [List.countP_cons]
    rw [List.sum_map_add, ih ht]
    simp only [decide_eq_true_eq]
    rw [sum_map_ite_one hnd hx, List.length_cons]

/-- Claim C7: for every record set and window start, `total_count` is the
number of qualifying records, `total_volume` is the exact sum of their
amounts (zero if none), every channel group's count and volume equal the
count and amount-sum of the qualifying records with that channel key, every
status group's count equals the count of qualifying records with that status
key, and the channel counts sum to `total_count`. -/
theorem claimC7_aggregation (ws : Nat) (docs : List Doc) :
    total_count ws docs = (docs.filter (qualifies ws)).length ∧
    total_volume ws docs = ((docs.filter (qualifies ws)).map amountOf).sum ∧
    (∀ c n v, (c, n, v) ∈ channel_data ws docs →
      n = (docs.filter (qualifies ws)).countP (fun d => decide (chanKey d = c)) ∧
      v = (((docs.filter (qualifies ws)).filter
          (fun d => decide (chanKey d = c))).map amountOf).sum) ∧
    (∀ s n, (s, n) ∈ status_data ws docs →
      n = (docs.filter (qualifies ws)).countP (fun d => decide (statKey d = s))) ∧
    ((channel_data ws docs).map (fun g => g.2.1)).sum = total_count ws docs := by
  refine ⟨?_, ?_, ?_, ?_, ?_⟩
  · unfold total_count
    rw [foldl_count]
    omega
  · unfold total_volume
    rw [foldl_volume]
    ring
  · intro c n v hmem
    rcases List.mem_map.mp hmem with ⟨c', _, heq⟩
    cases heq
    exact ⟨rfl, rfl⟩
  · intro s n hmem
    rcases List.mem_map.mp hmem with ⟨s', _, heq⟩
    cases heq
    exact rfl
  · unfold total_count
    rw [foldl_count, Nat.zero_add]
    unfold channel_data
    rw [List.map_map]
    have hrw : ((fun g : Value × Nat × Rat => g.2.1) ∘ fun c =>
        (c, (docs.filter (qualifies ws)).countP (fun d => decide (chanKey d = c)),
         (((docs.filter (qualifies ws)).filter
            (fun d => decide (chanKey d = c))).map amountOf).sum))
        = fun c => ((docs.filter (qualifies ws)).map chanKey).countP
            (fun x => decide (x = c)) := by
      funext c
      simp only [Function.comp, List.countP_map]
      rfl
    rw [hrw]
    rw [← List.length_map (docs.filter (qualifies ws)) chanKey]
    exact sum_counts _ _ (List.nodup_dedup _) fun x hx => List.mem_dedup.mpr hx

/-- A small transaction document for exercising the aggregation pipelines. -/
def stats_doc (tid ch st : String) (amt : Rat) (ts : Nat) : Doc := fun k =>
  if k = "txn_id" then some (Value.str tid)
  else if k = "channel" then some (Value.str ch)
  else if k = "status" then some (Value.str st)
  else if k = "amount" then some (Value.num amt)
  else if k = "timestamp" then some (Value.time ts)
  else none

/-- Three transactions: two inside the window starting at 50, one before it. -/
def stats_docs : List Doc :=
  [stats_doc "TXN200001" "UPI" "Success" 10 100,
   stats_doc "TXN200002" "NEFT" "Pending" 20 60,
   stats_doc "TXN200003" "UPI" "Success" 40 10]

/-- Claim C7, witness: on the three-document store with window start 50, the
Success status group carries count 1, matching the qualifying records, and
the channel counts sum to `total_count` (which is 2). -/
theorem claimC7_witness :
    (Value.str "Success", 1) ∈ status_data 50 stats_docs ∧
    (1 : Nat) = (stats_docs.filter (qualifies 50)).countP
        (fun d => decide (statKey d = Value.str "Success")) ∧
    ((channel_data 50 stats_docs).map (fun g => g.2.1)).sum
      = total_count 50 stats_docs :=
  ⟨by decide, (claimC7_aggregation 50 stats_docs).2.2.2.1 _ _ (by decide),
    (claimC7_aggregation 50 stats_docs).2.2.2.2⟩

/-! ## The listing endpoint `get_transactions`

`GET /api/transactions` builds a Mongo query from the optional parameters
(`if txn_id: ...` adds a constraint only for a non-empty string — Python
truthiness), runs `find(q).sort("timestamp", -1).limit(limit)` and returns
the documents.  The payer/payee constraints are `{"$regex": pat,
"$options": "i"}`: an unanchored, case-insensitive *regular-expression*
search, not a literal substring test.  `limit(n)` follows PyMongo/Mongo
semantics: `limit(0)` means no limit, otherwise at most `|n|` documents.

The regular-expression dialect is modelled by parsing the pattern into a
regex AST and matching by Brzozowski derivatives.  The modelled fragment:
literal characters; the `.` wildcard (any character except newline);
character classes `[...]` with ranges, leading-`]` literals and negation;
escapes (`\d \w \s`, the control escapes `\n \t \r`, and escaped punctuation
as literals); groups `(...)` and `(?:...)`; alternation; the quantifiers
`*`, `+`, `?` and counted `\x7bm\x7d`, `\x7bm,\x7d`, `\x7bm,n\x7d`; and `^`/`$` as
whole-pattern anchors.  Case-insensitivity is applied in the matcher (a
literal or class matches a character or its case-flipped form), matching
PCRE `/i`.  Patterns outside the fragment — lookaround, backreferences,
`\b`-style assertions, inner anchors, negated class escapes inside classes,
or invalid syntax — are refused by the parser (the real system would raise a
query error for the invalid ones); the claims only rely on patterns inside
the fragment. -/

/-- The PCRE metacharacters.  A pattern free of all of them is a plain
literal string. -/
def regex_metachars : List Char :=
  ['.', '*', '+', '?', '[', ']', '(', ')', '|', '^', '$', '\\', '\x7b', '\x7d']

/-- Regular-expression abstract syntax: empty word, the empty language,
a literal character, the `.` wildcard, a (possibly negated) character class
of ranges, concatenation, alternation, and Kleene star.  `+`, `?` and
counted quantifiers are desugared into these. -/
inductive RE where
  | eps
  | void
  | ch (c : Char)
  | any
  | cls (neg : Bool) (ranges : List (Char × Char))
  | seq (r1 r2 : RE)
  | alt (r1 r2 : RE)
  | star (r : RE)
deriving DecidableEq

/-- Does the expression accept the empty word? -/
def nullable : RE → Bool
  | .eps => true
  | .void => false
  | .ch _ => false
  | .any => false
  | .cls _ _ => false
  | .seq a b => nullable a && nullable b
  | .alt a b => nullable a || nullable b
  | .star _ => true

/-- The case-flipped form of a character (PCRE `/i` considers both). -/
def flipCase (c : Char) : Char :=
  if c.isLower then c.toUpper else if c.isUpper then c.toLower else c

/-- Case-insensitive membership of a character in a class: the character or
its case-flipped form lies in one of the ranges; `neg` complements. -/
def clsMatch (neg : Bool) (ranges : List (Char × Char)) (c : Char) : Bool :=
  let hit := ranges.any fun p =>
    (decide (p.1 ≤ c) && decide (c ≤ p.2)) ||
    (decide (p.1 ≤ flipCase c) && decide (flipCase c ≤ p.2))
  if neg then !hit else hit

/-- Brzozowski derivative: the language of words `w` with `c · w` in the
language of `r`.  Literals compare case-insensitively (PCRE `/i`); `.`
matches everything but newline. -/
def deriv : RE → Char → RE
  | .eps, _ => .void
  | .void, _ => .void
  | .ch a, c => if a.toLower = c.toLower then .eps else .void
  | .any, c => if c = '\n' then .void else .eps
  | .cls n rs, c => if clsMatch n rs c then .eps else .void
  | .seq a b, c =>
    if nullable a then .alt (.seq (deriv a c) b) (deriv b c)
    else .seq (deriv a c) b
  | .alt a b, c => .alt (deriv a c) (deriv b c)
  | .star a, c => .seq (deriv a c) (.star a)

/-- Does `r` match some prefix of the input (possibly empty)? -/
def matchHere (r : RE) : List Char → Bool
  | [] => nullable r
  | c :: cs => nullable r || matchHere (deriv r c) cs

/-- Does `r` match the whole input? -/
def matchAll (r : RE) : List Char → Bool
  | [] => nullable r
  | c :: cs => matchAll (deriv r c) cs

/-- Unanchored search: does `r` match some prefix at some position? -/
def searchRE (r : RE) : List Char → Bool
  | [] => nullable r
  | c :: cs => matchHere r (c :: cs) || searchRE r cs

/-- End-anchored search: does `r` match from some position to the end? -/
def searchEnd (r : RE) : List Char → Bool
  | [] => nullable r
  | c :: cs => matchAll r (c :: cs) || searchEnd r cs

/-- Run the search honouring whole-pattern `^`/`$` anchors. -/
def runSearch (aS aE : Bool) (r : RE) (cs : List Char) : Bool :=
  match aS, aE with
  | true, true => matchAll r cs
  | true, false => matchHere r cs
  | false, true => searchEnd r cs
  | false, false => searchRE r cs

/-- `n`-fold concatenation of `r` (for the counted quantifier `\x7bm\x7d`). -/
def seqN (r : RE) : Nat → RE
  | 0 => .eps
  | n + 1 => .seq r (seqN r n)

/-- `n`-fold optional concatenation of `r` (for `\x7bm,n\x7d`). -/
def optN (r : RE) : Nat → RE
  | 0 => .eps
  | n + 1 => .seq (.alt r .eps) (optN r n)

/-- An escape outside a class: `\d \w \s` classes, control escapes, literal
escaped punctuation; alphanumeric escapes without modelled meaning
(backreferences, boundary assertions, negated classes) are refused. -/
def parseEscape (e : Char) : Option RE :=
  if e = 'd' then some (.cls false [('0', '9')])
  else if e = 'w' then
    some (.cls false [('a', 'z'), ('A', 'Z'), ('0', '9'), ('_', '_')])
  else if e = 's' then
    some (.cls false [(' ', ' '), ('\t', '\t'), ('\n', '\n'), ('\r', '\r'),
      ('\x0b', '\x0b'), ('\x0c', '\x0c')])
  else if e = 'n' then some (.ch '\n')
  else if e = 't' then some (.ch '\t')
  else if e = 'r' then some (.ch '\r')
  else if e.isAlpha || e.isDigit then none
  else some (.ch e)

/-- An escape inside a class, as a list of ranges. -/
def clsEscape (e : Char) : Option (List (Char × Char)) :=
  if e = 'd' then some [('0', '9')]
  else if e = 'w' then some [('a', 'z'), ('A', 'Z'), ('0', '9'), ('_', '_')]
  else if e = 's' then
    some [(' ', ' '), ('\t', '\t'), ('\n', '\n'), ('\r', '\r'),
      ('\x0b', '\x0b'), ('\x0c', '\x0c')]
  else if e = 'n' then some [('\n', '\n')]
  else if e = 't' then some [('\t', '\t')]
  else if e = 'r' then some [('\r', '\r')]
  else if e.isAlpha || e.isDigit then none
  else some [(e, e)]

/-- Parse the items of a character class up to the closing `]`: single
characters, `a-z` ranges (a trailing `-` is a literal), and escapes. -/
def parseClsItems : List Char → List (Char × Char) →
    Option (List (Char × Char) × List Char)
  | [], _ => none
  | ']' :: rest, acc => some (acc, rest)
  | '\\' :: e :: rest, acc =>
    match clsEscape e with
    | none => none
    | some items => parseClsItems rest (items ++ acc)
  | c :: '-' :: d :: rest, acc =>
    if d = ']' then some (('-', '-') :: (c, c) :: acc, rest)
    else if d = '\\' then none
    else if c ≤ d then parseClsItems rest ((c, d) :: acc)
    else none
  | c :: rest, acc => parseClsItems rest ((c, c) :: acc)

/-- Parse a class after the opening `[`: optional negation, a leading `]`
is a literal (PCRE rule). -/
def parseCls (l : List Char) : Option (RE × List Char) :=
  match l with
  | '^' :: ']' :: rest =>
    (parseClsItems rest [(']', ']')]).map fun p => (.cls true p.1, p.2)
  | '^' :: rest =>
    (parseClsItems rest []).map fun p => (.cls true p.1, p.2)
  | ']' :: rest =>
    (parseClsItems rest [(']', ']')]).map fun p => (.cls false p.1, p.2)
  | rest =>
    (parseClsItems rest []).map fun p => (.cls false p.1, p.2)

/-- Fold a digit run into a number. -/
def digitsToNat (ds : List Char) : Nat :=
  ds.foldl (fun n c => n * 10 + (c.toNat - 48)) 0

/-- Parse a counted quantifier after the opening brace: `m\x7d`, `m,\x7d` or
`m,n\x7d`, desugared by unrolling. -/
def parseBrace (r : RE) (l : List Char) : Option (RE × List Char) :=
  let ds := l.takeWhile (fun c => c.isDigit)
  let rest1 := l.dropWhile (fun c => c.isDigit)
  if ds.isEmpty then none
  else
    let m := digitsToNat ds
    match rest1 with
    | '\x7d' :: rest2 => some (seqN r m, rest2)
    | ',' :: '\x7d' :: rest2 => some (.seq (seqN r m) (.star r), rest2)
    | ',' :: rest2 =>
      let ds2 := rest2.takeWhile (fun c => c.isDigit)
      let rest3 := rest2.dropWhile (fun c => c.isDigit)
      if ds2.isEmpty then none
      else
        let n := digitsToNat ds2
        match rest3 with
        | '\x7d' :: rest4 =>
          if m ≤ n then some (.seq (seqN r m) (optN r (n - m)), rest4) else none
        | _ => none
    | _ => none

/-- Apply postfix quantifiers (`*`, `+`, `?`, counted braces) to a parsed
atom, repeatedly.  Lazy variants like `*?` fold away: they accept the same
language. -/
def parsePostfix : Nat → RE → List Char → Option (RE × List Char)
  | 0, _, _ => none
  | _ + 1, r, [] => some (r, [])
  | f + 1, r, c :: rest =>
    if c = '*' then parsePostfix f (.star r) rest
    else if c = '+' then parsePostfix f (.seq r (.star r)) rest
    else if c = '?' then parsePostfix f (.alt r .eps) rest
    else if c = '\x7b' then
      match parseBrace r rest with
      | none => none
      | some (r', rest') => parsePostfix f r' rest'
    else some (r, c :: rest)

mutual

/-- Parse one atom: a group (`(...)` or `(?:...)`), a class, `.`, an escape,
or a literal character.  A quantifier, `)`, `|`, anchor or stray brace with
no operand is refused. -/
def parseAtom : Nat → List Char → Option (RE × List Char)
  | 0, _ => none
  | _ + 1, [] => none
  | f + 1, c :: rest =>
    if c = '(' then
      let body : Option (List Char) :=
        match rest with
        | '?' :: ':' :: rest' => some rest'
        | '?' :: _ => none
        | _ => some rest
      match body with
      | none => none
      | some rest' =>
        match parseAlt f rest' with
        | some (r, ')' :: rest2) => some (r, rest2)
        | _ => none
    else if c = '[' then parseCls rest
    else if c = '.' then some (.any, rest)
    else if c = '\\' then
      match rest with
      | [] => none
      | e :: rest' => (parseEscape e).map fun r => (r, rest')
    else if c = '*' ∨ c = '+' ∨ c = '?' ∨ c = '|' ∨ c = ')' ∨ c = '^' ∨
        c = '$' ∨ c = '\x7b' then none
    else some (.ch c, rest)

/-- Parse a concatenation of quantified atoms, stopping at `)` or `|`. -/
def parseConcat : Nat → List Char → Option (RE × List Char)
  | 0, _ => none
  | _ + 1, [] => some (.eps, [])
  | f + 1, c :: t =>
    if c = ')' ∨ c = '|' then some (.eps, c :: t)
    else
      match parseAtom f (c :: t) with
      | none => none
      | some (r, rest) =>
        match parsePostfix f r rest with
        | none => none
        | some (r', rest') =>
          match parseConcat f rest' with
          | none => none
          | some (r2, rest2) => some (.seq r' r2, rest2)

/-- Parse an alternation of concatenations. -/
def parseAlt : Nat → List Char → Option (RE × List Char)
  | 0, _ => none
  | f + 1, l =>
    match parseConcat f l with
    | none => none
    | some (r, rest) =>
      match rest with
      | '|' :: rest' =>
        match parseAlt f rest' with
        | some (r2, rest2) => some (.alt r r2, rest2)
        | none => none
      | _ => some (r, rest)

end

/-- Strip a leading `^` and an unescaped trailing `$` as whole-pattern
anchors, returning (anchored-start, anchored-end, body). -/
def stripAnchors (ps : List Char) : Bool × Bool × List Char :=
  let ps1 := if ps.head? == some '^' then ps.tail else ps
  if ps1.reverse.head? == some '$' && !(ps1.reverse.tail.head? == some '\\')
  then (ps.head? == some '^', true, ps1.reverse.tail.reverse)
  else (ps.head? == some '^', false, ps1)

/-- Parse a whole pattern: anchors, then the alternation grammar; the fuel
`3·length + 8` dominates the parser's recursion depth. -/
def parseRegex (ps : List Char) : Option (Bool × Bool × RE) :=
  let a := stripAnchors ps
  match parseAlt (3 * a.2.2.length + 8) a.2.2 with
  | some (r, []) => some (a.1, a.2.1, r)
  | _ => none

/-- Mongo `{"$regex": pat, "$options": "i"}` on a string value: parse the
pattern and search the subject; a pattern the parser refuses (invalid or
outside the modelled fragment) matches nothing. -/
def regexCI (pat s : String) : Bool :=
  match parseRegex pat.data with
  | some (aS, aE, r) => runSearch aS aE r s.data
  | none => false

/-- Modelled from the spec's words ("case-insensitive substring match"), for
comparison against the code's regex behaviour: the lowered pattern occurs
contiguously inside the lowered subject. -/
def containsCI (pat s : String) : Bool :=
  decide (pat.data.map Char.toLower <:+: s.data.map Char.toLower)

/-- A query-parameter constraint is added only when the parameter is present
and non-empty (Python `if x:` on an optional string). -/
def optConstraint (o : Option String) (f : String → Bool) : Bool :=
  match o with
  | none => true
  | some s => if s.isEmpty then true else f s

/-- The optional search parameters of `GET /api/transactions`. -/
structure Query where
  txn_id : Option String
  payer : Option String
  payee : Option String
  status : Option String

/-- A regex constraint applied to a document field: only an actual string
value can match. -/
def strFieldMatches (v : Option Value) (f : String → Bool) : Bool :=
  match v with
  | some (.str s) => f s
  | _ => false

/-- The Mongo query `q` built by `get_transactions`, applied to one document:
exact `txn_id`, case-insensitive regex on `payer` and `payee`, exact
`status`; absent (or empty) parameters constrain nothing. -/
def matchesQuery (q : Query) (d : Doc) : Bool :=
  optConstraint q.txn_id (fun t => decide (d "txn_id" = some (Value.str t))) &&
  optConstraint q.payer (fun p => strFieldMatches (d "payer") (regexCI p)) &&
  optConstraint q.payee (fun p => strFieldMatches (d "payee") (regexCI p)) &&
  optConstraint q.status (fun t => decide (d "status" = some (Value.str t)))

/-- The spec-side counterpart of `matchesQuery` with payer/payee read as
case-insensitive *substring* predicates, as §4.1 words them. -/
def matchesSpecQuery (q : Query) (d : Doc) : Bool :=
  optConstraint q.txn_id (fun t => decide (d "txn_id" = some (Value.str t))) &&
  optConstraint q.payer (fun p => strFieldMatches (d "payer") (containsCI p)) &&
  optConstraint q.payee (fun p => strFieldMatches (d "payee") (containsCI p)) &&
  optConstraint q.status (fun t => decide (d "status" = some (Value.str t)))

/-- The `sort("timestamp", -1)` key of a document.  The stores the claims
quantify over carry datetime-typed timestamps; BSON's cross-type ordering is
abstracted by keying non-datetime values at `0`. -/
def tsOf (d : Doc) : Nat :=
  match d "timestamp" with
  | some (.time t) => t
  | _ => 0

/-- `sort("timestamp", -1)`: order by timestamp descending. -/
def sortByTsDesc (l : List Doc) : List Doc :=
  List.insertionSort (fun a b => tsOf b ≤ tsOf a) l

/-- PyMongo `cursor.limit(n)`: `0` disables the bound, otherwise at most
`|n|` documents are returned. -/
def mongoLimit {α : Type} (lim : Int) (l : List α) : List α :=
  if lim = 0 then l else l.take lim.natAbs

/-- `get_transactions` from `backend/app.py`: filter by the assembled query,
sort by timestamp descending, apply the limit (default 100 upstream). -/
def get_transactions (q : Query) (lim : Int) (docs : List Doc) : List Doc :=
  mongoLimit lim (sortByTsDesc (docs.filter (matchesQuery q)))

instance : IsTotal Doc (fun a b => tsOf b ≤ tsOf a) :=
  ⟨fun a b => le_total (tsOf b) (tsOf a)⟩

instance : IsTrans Doc (fun a b => tsOf b ≤ tsOf a) :=
  ⟨fun _ _ _ hab hbc => le_trans hbc hab⟩

/-- The regex denoting exactly a literal character string. -/
def litRE (ps : List Char) : RE :=
  ps.foldr (fun c r => .seq (.ch c) r) .eps

theorem litRE_cons (p : Char) (pt : List Char) :
    litRE (p :: pt) = .seq (.ch p) (litRE pt) := rfl

theorem matchHere_void (cs : List Char) : matchHere .void cs = false := by
  induction cs with
  | nil => rfl
  | cons c ct ih => simp [matchHere, deriv, nullable, ih]

theorem matchHere_alt (cs : List Char) (a b : RE) :
    matchHere (.alt a b) cs = (matchHere a cs || matchHere b cs) := by
  induction cs generalizing a b with
  | nil => rfl
  | cons c ct ih =>
    simp only [matchHere, deriv, nullable, ih]
    cases nullable a <;> cases nullable b <;>
      simp [Bool.or_comm, Bool.or_assoc, Bool.or_left_comm]

theorem matchHere_seq_void (cs : List Char) (r : RE) :
    matchHere (.seq .void r) cs = false := by
  induction cs generalizing r with
  | nil => rfl
  | cons c ct ih => simp [matchHere, deriv, nullable, ih]

theorem matchHere_seq_eps (cs : List Char) (r : RE) :
    matchHere (.seq .eps r) cs = matchHere r cs := by
  cases cs with
  | nil => simp [matchHere, nullable]
  | cons c ct =>
    simp [matchHere, deriv, nullable, matchHere_alt, matchHere_seq_void]

theorem matchHere_lit (ps : List Char) :
    ∀ cs, matchHere (litRE ps) cs = true ↔
      ps.map Char.toLower <+: cs.map Char.toLower := by
  induction ps with
  | nil =>
    intro cs
    cases cs <;> simp [litRE, matchHere, nullable, List.nil_prefix]
  | cons p pt ih =>
    intro cs
    cases cs with
    | nil =>
      simp [litRE_cons, matchHere, nullable]
    | cons c ct =>
      rw [litRE_cons]
      simp only [matchHere, nullable, Bool.and_eq_true, Bool.false_and,
        Bool.false_or]
      by_cases hpc : p.toLower = c.toLower
      · simp only [deriv, nullable, if_neg (by simp : ¬(false = true)),
          if_pos hpc]
        rw [matchHere_seq_eps, ih ct]
        simp only [List.map_cons, List.cons_prefix_cons]
        exact ⟨fun hp => ⟨hpc, hp⟩, fun hp => hp.2⟩
      · simp only [deriv, nullable, if_neg (by simp : ¬(false = true)),
          if_neg hpc]
        rw [matchHere_seq_void]
        simp only [List.map_cons, List.cons_prefix_cons]
        constructor
        · intro hf; cases hf
        · intro hp; exact absurd hp.1 hpc

theorem searchRE_lit (ps : List Char) :
    ∀ cs, searchRE (litRE ps) cs = true ↔
      ps.map Char.toLower <:+: cs.map Char.toLower := by
  intro cs
  induction cs with
  | nil =>
    have h := matchHere_lit ps []
    simp only [matchHere] at h
    simp only [searchRE, h, List.map_nil, List.prefix_nil, List.infix_nil]
  | cons c ct ih =>
    simp only [searchRE, Bool.or_eq_true, matchHere_lit ps (c :: ct), ih,
      List.map_cons]
    exact (List.infix_cons_iff).symm

theorem parseAtom_lit {c : Char} (hc : c ∉ regex_metachars) (f : Nat)
    (t : List Char) : parseAtom (f + 1) (c :: t) = some (.ch c, t) := by
  have hne : ∀ x, x ∈ regex_metachars → c ≠ x :=
    fun x hx he => hc (he ▸ hx)
  simp only [parseAtom]
  rw [if_neg (hne '(' (by decide)), if_neg (hne '[' (by decide)),
    if_neg (hne '.' (by decide)), if_neg (hne '\\' (by decide)),
    if_neg ?hbig]
  case hbig =>
    rintro (rfl | rfl | rfl | rfl | rfl | rfl | rfl | rfl) <;>
      exact hc (by decide)

theorem parsePostfix_lit (f : Nat) (r : RE) {t : List Char}
    (ht : ∀ x ∈ t, x ∉ regex_metachars) :
    parsePostfix (f + 1) r t = some (r, t) := by
  cases t with
  | nil => rfl
  | cons c t' =>
    have hne : ∀ x, x ∈ regex_metachars → c ≠ x :=
      fun x hx he => ht c (List.mem_cons_self c t') (he ▸ hx)
    simp only [parsePostfix]
    rw [if_neg (hne '*' (by decide)), if_neg (hne '+' (by decide)),
      if_neg (hne '?' (by decide)), if_neg (hne '\x7b' (by decide))]

theorem parseConcat_lit : ∀ (ps : List Char) (f : Nat),
    (∀ c ∈ ps, c ∉ regex_metachars) → ps.length + 1 ≤ f →
    parseConcat f ps = some (litRE ps, []) := by
  intro ps
  induction ps with
  | nil =>
    intro f _ hf
    obtain ⟨f1, rfl⟩ : ∃ f1, f = f1 + 1 := ⟨f - 1, by omega⟩
    rfl
  | cons c t ih =>
    intro f h hf
    simp only [List.length_cons] at hf
    obtain ⟨f1, rfl⟩ : ∃ f1, f = f1 + 1 := ⟨f - 1, by omega⟩
    obtain ⟨f2, rfl⟩ : ∃ f2, f1 = f2 + 1 := ⟨f1 - 1, by omega⟩
    have hch := h c (List.mem_cons_self c t)
    have hta : ∀ x ∈ t, x ∉ regex_metachars :=
      fun x hx => h x (List.mem_cons_of_mem c hx)
    simp only [parseConcat,
      if_neg (by rintro (rfl | rfl) <;> exact hch (by decide) :
        ¬(c = ')' ∨ c = '|')),
      parseAtom_lit hch f2 t, parsePostfix_lit f2 (.ch c) hta,
      ih (f2 + 1) hta (by omega)]
    rfl

theorem parseAlt_lit {ps : List Char} {f : Nat}
    (h : ∀ c ∈ ps, c ∉ regex_metachars) (hf : ps.length + 2 ≤ f) :
    parseAlt f ps = some (litRE ps, []) := by
  obtain ⟨f1, rfl⟩ : ∃ f1, f = f1 + 1 := ⟨f - 1, by omega⟩
  simp only [parseAlt, parseConcat_lit ps f1 h (by omega)]

theorem head?_beq_of_not_mem {l : List Char} {a : Char} (h : a ∉ l) :
    (l.head? == some a) = false := by
  cases l with
  | nil => rfl
  | cons c t =>
    simp only [List.mem_cons, not_or] at h
    simp only [List.head?]
    rw [beq_eq_false_iff_ne]
    intro he
    exact h.1 (Option.some.inj he).symm

theorem stripAnchors_lit {ps : List Char}
    (h : ∀ c ∈ ps, c ∉ regex_metachars) :
    stripAnchors ps = (false, false, ps) := by
  have h1 : (ps.head? == some '^') = false :=
    head?_beq_of_not_mem fun hm => h '^' hm (by decide)
  have h2 : (ps.getLast? == some '$') = false := by
    rw [← List.head?_reverse]
    exact head?_beq_of_not_mem fun hm => h '$' (List.mem_reverse.mp hm) (by decide)
  simp [stripAnchors, h1, h2]

theorem parseRegex_lit {ps : List Char}
    (h : ∀ c ∈ ps, c ∉ regex_metachars) :
    parseRegex ps = some (false, false, litRE ps) := by
  simp only [parseRegex, stripAnchors_lit h]
  simp only [parseAlt_lit h (by omega : ps.length + 2 ≤ 3 * ps.length + 8)]

theorem regexCI_eq_containsCI {pat s : String}
    (h : ∀ c ∈ pat.data, c ∉ regex_metachars) :
    regexCI pat s = containsCI pat s := by
  have hrun : regexCI pat s = searchRE (litRE pat.data) s.data := by
    simp only [regexCI, parseRegex_lit h]
    rfl
  rw [hrun]
  unfold containsCI
  by_cases hr : searchRE (litRE pat.data) s.data = true
  · rw [hr, (decide_eq_true ((searchRE_lit pat.data s.data).mp hr)).symm]
  · have hf : searchRE (litRE pat.data) s.data = false :=
      Bool.eq_false_iff.mpr hr
    rw [hf,
      (decide_eq_false fun hi => hr ((searchRE_lit pat.data s.data).mpr hi)).symm]

/-- Claim C9 (amended): for every positive limit the listing returns at most
`limit` records, every returned record satisfies the assembled query — exact
`txn_id`, exact `status`, and payer/payee matched as case-insensitive
unanchored *regular expressions* — and the result is sorted by timestamp
descending.  For patterns free of regex metacharacters the payer/payee
predicate coincides with the spec's case-insensitive substring match (final
conjunct); for patterns containing metacharacters it does not, refuting the
unconditional substring reading (`claimC9_counterexample`). -/
theorem claimC9_listing (docs : List Doc) (q : Query) (lim : Int)
    (hl : 0 < lim) :
    ((get_transactions q lim docs).length : Int) ≤ lim ∧
    (∀ d ∈ get_transactions q lim docs, matchesQuery q d = true) ∧
    (get_transactions q lim docs).Sorted (fun a b => tsOf b ≤ tsOf a) ∧
    (∀ pat s, (∀ c ∈ pat.data, c ∉ regex_metachars) →
      regexCI pat s = containsCI pat s) := by
  have hlim : get_transactions q lim docs
      = (sortByTsDesc (docs.filter (matchesQuery q))).take lim.natAbs := by
    unfold get_transactions mongoLimit
    rw [if_neg (by omega : ¬ lim = 0)]
  refine ⟨?_, ?_, ?_, fun pat s h => regexCI_eq_containsCI h⟩
  · rw [hlim]
    have h1 : ((sortByTsDesc (docs.filter (matchesQuery q))).take
        lim.natAbs).length ≤ lim.natAbs := by
      rw [List.length_take]
      exact Nat.min_le_left _ _
    have h2 : ((lim.natAbs : Nat) : Int) = lim := Int.natAbs_of_nonneg hl.le
    omega
  · intro d hd
    rw [hlim] at hd
    have hsort := List.mem_of_mem_take hd
    have hfil : d ∈ docs.filter (matchesQuery q) :=
      ((List.perm_insertionSort _ _).mem_iff).mp hsort
    exact (List.mem_filter.mp hfil).2
  · rw [hlim]
    exact List.Pairwise.sublist (List.take_sublist _ _)
      (List.sorted_insertionSort _ _)

/-- A transaction document for exercising the listing endpoint. -/
def list_doc (tid payer payee st : String) (ts : Nat) : Doc := fun k =>
  if k = "txn_id" then some (Value.str tid)
  else if k = "payer" then some (Value.str payer)
  else if k = "payee" then some (Value.str payee)
  else if k = "status" then some (Value.str st)
  else if k = "timestamp" then some (Value.time ts)
  else none

/-- A failed transaction at timestamp 30. -/
def doc_failed_a : Doc := list_doc "TXN300001" "Alice" "MerchantA" "Failed" 30

/-- A failed transaction at timestamp 5. -/
def doc_failed_b : Doc := list_doc "TXN300002" "Bob" "StoreX" "Failed" 5

/-- A successful transaction at timestamp 20. -/
def doc_success_c : Doc := list_doc "TXN300003" "Carol" "VendorY" "Success" 20

/-- A three-document store in non-sorted insertion order. -/
def listing_docs : List Doc := [doc_failed_b, doc_success_c, doc_failed_a]

/-- The query `{status: "Failed"}` and nothing else. -/
def query_failed : Query := ⟨none, none, none, some "Failed"⟩

/-- Claim C9, witness: listing with filter `{status: "Failed"}` and limit 5
returns at most 5 records, all matching the query. -/
theorem claimC9_witness :
    (0 : Int) < 5 ∧
    ((get_transactions query_failed 5 listing_docs).length : Int) ≤ 5 ∧
    (∀ d ∈ get_transactions query_failed 5 listing_docs,
      matchesQuery query_failed d = true) ∧
    (∀ c ∈ ("fail" : String).data, c ∉ regex_metachars) ∧
    regexCI "fail" "A Failed Txn" = containsCI "fail" "A Failed Txn" :=
  ⟨by decide, (claimC9_listing listing_docs query_failed 5 (by decide)).1,
    (claimC9_listing listing_docs query_failed 5 (by decide)).2.1,
    by decide,
    (claimC9_listing listing_docs query_failed 5 (by decide)).2.2.2
      "fail" "A Failed Txn" (by decide)⟩

/-- A document whose payer is the literal string `abc`. -/
def doc_payer_abc : Doc := list_doc "TXN300004" "abc" "MerchantA" "Pending" 7

/-- Claim C9, counterexample to the claim as stated: with the payer filter
`a.c` (a regex wildcard pattern) and limit 5, the code returns the record
with payer `abc`, which does not satisfy the claimed case-insensitive
substring predicate — the filter is a regex search, not a substring test. -/
theorem claimC9_counterexample :
    doc_payer_abc ∈ get_transactions ⟨none, some "a.c", none, none⟩ 5
      [doc_payer_abc] ∧
    matchesSpecQuery ⟨none, some "a.c", none, none⟩ doc_payer_abc = false := by
  constructor
  · have h : get_transactions ⟨none, some "a.c", none, none⟩ 5 [doc_payer_abc]
        = [doc_payer_abc] := rfl
    rw [h]
    exact List.mem_singleton.mpr rfl
  · decide

/-- Claim C10: `limit = 0` does not bound the result at zero records — the
bound is disabled and the listing returns exactly the matching records
(as a permutation of the filtered store, sorted by timestamp descending), so
every matching record is in the result. -/
theorem claimC10_limit_zero (docs : List Doc) (q : Query) :
    List.Perm (get_transactions q 0 docs) (docs.filter (matchesQuery q)) ∧
    ∀ d ∈ docs, matchesQuery q d = true → d ∈ get_transactions q 0 docs := by
  have hperm : List.Perm (get_transactions q 0 docs)
      (docs.filter (matchesQuery q)) := by
    unfold get_transactions mongoLimit sortByTsDesc
    rw [if_pos rfl]
    exact List.perm_insertionSort _ _
  exact ⟨hperm, fun d hd hm => hperm.mem_iff.mpr (List.mem_filter.mpr ⟨hd, hm⟩)⟩

/-- Claim C10, witness: with limit 0 both Failed records are returned — in
particular `doc_failed_b`, which a zero bound would have excluded. -/
theorem claimC10_witness :
    matchesQuery query_failed doc_failed_b = true ∧
    doc_failed_b ∈ get_transactions query_failed 0 listing_docs :=
  ⟨by decide, (claimC10_limit_zero listing_docs query_failed).2 doc_failed_b
    (List.mem_cons_self _ _) (by decide)⟩

end PaymentDashboard
